import Mathlib

/-! Verification of the embedded document store (`TinyDBHandler`).

Shallow embedding of `src/backend/app/database/tinydb_handler.py` (the
Document Store Engine) together with the parts of its environment it is
built on:

* records are Python dicts: string-keyed association lists with unique
  keys and insertion-order semantics (`d[k] = v` keeps the position of an
  existing key, otherwise appends; `{**a, **b}` / `dict.update` overlay);
* the schema validator models the `jsonschema` subset exercised by
  `src/backend/app/database/schemas.py`: an object schema with
  per-property type constraints (including union types such as
  `["string", "null"]`), string enums, and a `required` list, with
  `additionalProperties` allowed;
* the Record Codec (the TinyDB table plus `CachingMiddleware`) is not part
  of this repository's sources, so it is modelled from the spec: a
  sequence-number-keyed table of records whose sequence numbers are
  assigned in monotonically increasing order and never reused, with a
  write-through in-memory cache that reaches the backing file only on an
  explicit flush (insert/update flush; delete/truncate do not) and where a
  missing record makes `update`/`delete` report a boolean rather than
  raise;
* the error classes of `src/backend/app/core/exceptions.py` that the
  handler can surface (`ValidationException`, `DatabaseException`,
  `NotFoundException`) are modelled as an error datatype carrying the
  `detail` message.

The clock (`datetime.utcnow().isoformat()`) and the uuid generator are
threaded as explicit string arguments.
-/

/-- A JSON value, as stored in a record field. -/
inductive JVal where
  | jnull : JVal
  | jbool : Bool → JVal
  | jnum : Int → JVal
  | jstr : String → JVal
  | jarr : List JVal → JVal
  | jobj : List (String × JVal) → JVal

/-- A record: a Python dict with string keys (unique, insertion ordered). -/
abbrev Rec := List (String × JVal)

/-- Association-list lookup: the value at the first occurrence of the key
(Python dicts have at most one occurrence). -/
def alookup {α : Type} (l : List (String × α)) (k : String) : Option α :=
  match l.find? (fun p => p.1 == k) with
  | some p => some p.2
  | none => none

/-- Python `d[k] = v`: replace the value in place if the key exists,
otherwise append the new key at the end. -/
def aset {α : Type} (l : List (String × α)) (k : String) (v : α) :
    List (String × α) :=
  match l with
  | [] => [(k, v)]
  | p :: rest => if p.1 == k then (k, v) :: rest else p :: aset rest k v

/-- Field lookup on a record (`data.get(k)` / `k in data`). -/
def getField (r : Rec) (k : String) : Option JVal := alookup r k

/-- Field assignment on a record (`data[k] = v`). -/
def setField (r : Rec) (k : String) (v : JVal) : Rec := aset r k v

/-- Python `{**a, **b}` and `a.update(b)`: `b`'s fields overlaid on `a`. -/
def mergeRec (a b : Rec) : Rec := b.foldl (fun acc p => setField acc p.1 p.2) a

/-- A JSON-schema primitive type name, as used in `schemas.py`
(`"string"`, `"integer"`, `"boolean"`, `"object"`, `"array"`, `"null"`). -/
inductive JTy where
  | tString | tInteger | tBoolean | tObject | tArray | tNull
  deriving DecidableEq, Repr

/-- Does a JSON value have the given primitive type? -/
def typeMatches : JTy → JVal → Bool
  | .tString, .jstr _ => true
  | .tInteger, .jnum _ => true
  | .tBoolean, .jbool _ => true
  | .tObject, .jobj _ => true
  | .tArray, .jarr _ => true
  | .tNull, .jnull => true
  | _, _ => false

/-- The constraint a schema places on one property: a `"type"` keyword
(a union of admissible primitive types) and an optional string `"enum"`,
the combinators `schemas.py` uses (e.g. `status`, `task_master_path`). -/
structure PropSchema where
  types : List JTy
  enum : Option (List String)
  deriving DecidableEq, Repr

/-- Does a value satisfy one property's constraint? -/
def checkProp (p : PropSchema) (v : JVal) : Bool :=
  p.types.any (fun t => typeMatches t v) &&
    (match p.enum with
     | none => true
     | some vs =>
       match v with
       | .jstr s => vs.contains s
       | _ => false)

/-- An object schema from `schemas.py`: per-property constraints plus a
`required` list, `additionalProperties` allowed. -/
structure Schema where
  properties : List (String × PropSchema)
  required : List String
  deriving DecidableEq, Repr

/-- `jsonschema.validate` on an object schema: every required key is
present, and every declared property that is present satisfies its
constraint. Extra keys are allowed (`additionalProperties: True`). -/
def validateRec (s : Schema) (r : Rec) : Bool :=
  s.required.all (fun k => (getField r k).isSome) &&
    s.properties.all (fun q =>
      match getField r q.1 with
      | none => true
      | some v => checkProp q.2 v)

/-- The core of `PROJECT_SCHEMA` (`schemas.py` lines 8-110): the top-level
required list and the property constraints this development exercises
(string fields, the `status` enum, nullable `task_master_path`).
Properties whose constraints no claim depends on (string lengths, nested
object shapes) are carried as bare type constraints. -/
def PROJECT_SCHEMA : Schema :=
  { properties :=
      [ ("id", ⟨[.tString], none⟩)
      , ("name", ⟨[.tString], none⟩)
      , ("description", ⟨[.tString], none⟩)
      , ("requirements", ⟨[.tString], none⟩)
      , ("tech_stack", ⟨[.tArray], none⟩)
      , ("status", ⟨[.tString],
          some ["draft", "active", "completed", "archived", "cancelled"]⟩)
      , ("tags", ⟨[.tArray], none⟩)
      , ("metadata", ⟨[.tObject], none⟩)
      , ("created_at", ⟨[.tString], none⟩)
      , ("updated_at", ⟨[.tString], none⟩)
      , ("session_count", ⟨[.tInteger], none⟩)
      , ("task_master_initialized", ⟨[.tBoolean], none⟩)
      , ("task_master_path", ⟨[.tString, .tNull], none⟩)
      , ("tasks_generated", ⟨[.tBoolean], none⟩)
      , ("tasks_count", ⟨[.tInteger], none⟩) ]
    required := ["id", "name", "status", "created_at", "updated_at"] }

/-- The errors the handler surfaces, one constructor per exception class of
`app/core/exceptions.py` that the store's paths can raise, carrying the
`detail` string. `ValidationException` re-raises pass through unchanged;
any other exception inside a handler method becomes a
`DatabaseException`. `NotFoundException` exists in `exceptions.py` but is
listed here so statements can distinguish it from the others. -/
inductive DBError where
  | validationError : String → DBError
  | databaseError : String → DBError
  | notFoundError : String → DBError
  deriving DecidableEq, Repr

/-- An identifier accepted by `get_by_id` / `update` / `delete`:
a string application id or an integer internal sequence number
(`Union[str, int]` dispatched with `isinstance(doc_id, str)`). -/
inductive DocKey where
  | str : String → DocKey
  | int : Nat → DocKey
  deriving DecidableEq, Repr

/-- Modelled from the spec: the Record Codec's table — a
sequence-number-keyed list of records in insertion order, plus the next
sequence number to assign (monotonically increasing, never reused even
after deletion). -/
structure Table where
  next_id : Nat
  docs : List (Nat × Rec)

/-- Modelled from the spec: loading a collection file assigns the next
sequence number above every number present in the file. -/
def maxDocId (docs : List (Nat × Rec)) : Nat :=
  docs.foldl (fun m p => max m p.1) 0

/-- Modelled from the spec: reinitialising the Codec over a file's record
table. -/
def tableOfFile (docs : List (Nat × Rec)) : Table :=
  ⟨maxDocId docs + 1, docs⟩

/-- The full state a `TinyDBHandler` instance lives in: its schema and
path (immutable after `__init__`), the Codec's in-memory cache, the
durable content of the backing file at `db_path` (the cache reaches it
only on flush), and the other files `backup`/`restore` touch. -/
structure SysState where
  schema : Option Schema
  dbPath : String
  cache : Table
  disk : List (Nat × Rec)
  backups : List (String × List (Nat × Rec))

/-- Well-formedness the Codec maintains: sequence numbers are unique and
below `next_id`. -/
def Table.WF (t : Table) : Prop :=
  (t.docs.map Prod.fst).Nodup ∧ ∀ p ∈ t.docs, p.1 < t.next_id

namespace TinyDBHandler

/-- `_validate_data`: with no schema, anything passes; with a schema, a
failing record raises `ValidationException("Data validation failed: ...")`. -/
def validateData (schema : Option Schema) (data : Rec) : Except DBError Unit :=
  match schema with
  | none => .ok ()
  | some s =>
    if validateRec s data then .ok ()
    else .error (.validationError "Data validation failed")

/-- One `if key not in data: data[key] = value` step of `insert`. -/
def setIfAbsent (r : Rec) (k : String) (v : JVal) : Rec :=
  if (getField r k).isSome then r else setField r k v

/-- The metadata fill of `insert` (lines 71-78): set `created_at`, then
`updated_at`, then `id`, each only when absent. `ts` is the
`datetime.utcnow().isoformat()` reading and `uuid` the `str(uuid.uuid4())`
value. -/
def fillDefaults (data : Rec) (ts uuid : String) : Rec :=
  setIfAbsent
    (setIfAbsent (setIfAbsent data "created_at" (.jstr ts)) "updated_at" (.jstr ts))
    "id" (.jstr uuid)

/-- `insert`: validate first (no mutation on failure), fill metadata,
append to the Codec's table under the next sequence number, flush, and
return the sequence number. -/
def insert (st : SysState) (data : Rec) (ts uuid : String) :
    SysState × Except DBError Nat :=
  match validateData st.schema data with
  | .error e => (st, .error e)
  | .ok _ =>
    let data' := fillDefaults data ts uuid
    let docId := st.cache.next_id
    let cache' : Table := ⟨st.cache.next_id + 1, st.cache.docs ++ [(docId, data')]⟩
    ({st with cache := cache', disk := cache'.docs}, .ok docId)

/-- The predicate `Query().id == s` on a stored record: the `id` field is
present, is a string, and equals `s` (a non-string `id` never matches a
string query). -/
def idMatch (s : String) (r : Rec) : Bool :=
  match getField r "id" with
  | some (.jstr t) => t == s
  | _ => false

/-- Which stored documents an identifier addresses, following the
`isinstance(doc_id, str)` dispatch. -/
def matchesKey (k : DocKey) (p : Nat × Rec) : Bool :=
  match k with
  | .str s => idMatch s p.2
  | .int n => p.1 == n

/-- `get_by_id`: string → `db.search(Query().id == doc_id)` and the first
hit or `None`; integer → `db.get(doc_id=...)`. Pure read. -/
def get_by_id (st : SysState) (key : DocKey) : Option Rec :=
  match key with
  | .str s => ((st.cache.docs.filter (fun p => idMatch s p.2)).head?).map Prod.snd
  | .int n => (st.cache.docs.find? (fun p => p.1 == n)).map Prod.snd

/-- `get_all`: every live record in table order. -/
def get_all (st : SysState) : List Rec := st.cache.docs.map Prod.snd

/-- `count`: `len(self.db)`. -/
def count (st : SysState) : Nat := st.cache.docs.length

/-- `update` (lines 126-162): look up the existing record (`False` when
absent), validate the merged view `{**existing_doc, **data}`, stamp
`data["updated_at"]`, apply the patch to every document the identifier
addresses, and flush when at least one document was updated. -/
def update (st : SysState) (key : DocKey) (data : Rec) (ts : String) :
    SysState × Except DBError Bool :=
  match get_by_id st key with
  | none => (st, .ok false)
  | some existing =>
    match validateData st.schema (mergeRec existing data) with
    | .error e => (st, .error e)
    | .ok _ =>
      let data' := setField data "updated_at" (.jstr ts)
      let updatedIds : List Nat :=
        match key with
        | .str s => (st.cache.docs.filter (fun p => idMatch s p.2)).map Prod.fst
        | .int n => [n]
      let docs' := st.cache.docs.map (fun p =>
        if matchesKey key p then (p.1, mergeRec p.2 data') else p)
      let success := !updatedIds.isEmpty
      let st' : SysState :=
        { st with cache := ⟨st.cache.next_id, docs'⟩,
                  disk := if success then docs' else st.disk }
      (st', .ok success)

/-- `delete` (lines 168-187): remove every document the identifier
addresses and report whether any was removed. No flush. The
integer branch is modelled from the spec: a missing sequence number makes
`delete` return `False` rather than raise. -/
def delete (st : SysState) (key : DocKey) : SysState × Bool :=
  let removedIds : List Nat :=
    match key with
    | .str s => (st.cache.docs.filter (fun p => idMatch s p.2)).map Prod.fst
    | .int n => if st.cache.docs.any (fun p => p.1 == n) then [n] else []
  let docs' := st.cache.docs.filter (fun p => !matchesKey key p)
  ({st with cache := ⟨st.cache.next_id, docs'⟩}, !removedIds.isEmpty)

/-- `truncate`: drop every record from the cache. No flush. The sequence
counter is modelled from the spec as monotone per collection. -/
def truncate (st : SysState) : SysState :=
  {st with cache := ⟨st.cache.next_id, []⟩}

/-- `backup` (lines 206-237): raw byte-for-byte copy of the backing file
as currently durable on disk to `path`, returning the path. The
timestamp-derived default destination is passed in explicitly. -/
def backup (st : SysState) (path : String) : SysState × String :=
  ({st with backups := aset st.backups path st.disk}, path)

/-- `restore` (lines 239-279): a missing backup file raises
`FileNotFoundError`, which the method's own `except Exception` turns into
`DatabaseException("Restore failed: ...")`. Otherwise: `close` flushes the
cache to the live file, a safety copy of the live file goes to
`<db_path>.pre_restore_backup`, the backup's content replaces the live
file, and the Codec is reinitialised from it. -/
def restore (st : SysState) (path : String) : SysState × Except DBError Bool :=
  match alookup st.backups path with
  | none =>
    (st, .error (.databaseError ("Restore failed: Backup file not found: " ++ path)))
  | some content =>
    let diskClosed := st.cache.docs
    let backups' := aset st.backups (st.dbPath ++ ".pre_restore_backup") diskClosed
    ({ st with cache := tableOfFile content, disk := content,
               backups := backups' }, .ok true)

end TinyDBHandler

/-! ## Association-list (Python dict) lemmas -/

theorem alookup_nil {α : Type} (k : String) : alookup ([] : List (String × α)) k = none := rfl

theorem alookup_cons {α : Type} (k' : String) (v' : α) (l : List (String × α)) (k : String) :
    alookup ((k', v') :: l) k = if k' = k then some v' else alookup l k := by
  simp only [alookup, List.find?]
  cases h : (k' == k) with
  | true => simp [beq_iff_eq] at h; simp [h]
  | false => simp [beq_iff_eq] at h; simp [h, alookup]

theorem aset_nil {α : Type} (k : String) (v : α) : aset ([] : List (String × α)) k v = [(k, v)] := rfl

theorem aset_cons {α : Type} (p : String × α) (l : List (String × α)) (k : String) (v : α) :
    aset (p :: l) k v = if p.1 = k then (k, v) :: l else p :: aset l k v := by
  simp only [aset]
  cases h : (p.1 == k) with
  | true => simp [beq_iff_eq] at h; simp [h]
  | false => simp [beq_iff_eq] at h; simp [h]

theorem alookup_aset_self {α : Type} (l : List (String × α)) (k : String) (v : α) :
    alookup (aset l k v) k = some v := by
  induction l with
  | nil => simp [aset_nil, alookup_cons]
  | cons p rest ih =>
    rw [aset_cons]
    by_cases h : p.1 = k
    · simp [h, alookup_cons]
    · rw [if_neg h]
      rcases p with ⟨k', v'⟩
      rw [alookup_cons, if_neg h, ih]

theorem alookup_aset_ne {α : Type} (l : List (String × α)) (k k' : String) (v : α)
    (h : k ≠ k') : alookup (aset l k v) k' = alookup l k' := by
  induction l with
  | nil => simp [aset_nil, alookup_cons, h, alookup_nil]
  | cons p rest ih =>
    rw [aset_cons]
    by_cases hp : p.1 = k
    · rcases p with ⟨k'', v''⟩
      simp only at hp
      rw [if_pos hp, alookup_cons, alookup_cons, if_neg h, hp]
      rw [if_neg (hp ▸ h)]
    · rw [if_neg hp]
      rcases p with ⟨k'', v''⟩
      rw [alookup_cons, alookup_cons, ih]

theorem alookup_eq_none_of_not_mem {α : Type} (l : List (String × α)) (k : String)
    (h : k ∉ l.map Prod.fst) : alookup l k = none := by
  induction l with
  | nil => rfl
  | cons p rest ih =>
    rcases p with ⟨k', v'⟩
    simp only [List.map_cons, List.mem_cons] at h
    push_neg at h
    rw [alookup_cons, if_neg (fun he => h.1 he.symm), ih h.2]

theorem mem_keys_aset {α : Type} (l : List (String × α)) (k a : String) (v : α)
    (h : a ∈ (aset l k v).map Prod.fst) : a ∈ l.map Prod.fst ∨ a = k := by
  induction l with
  | nil => simp [aset_nil] at h; simp [h]
  | cons p rest ih =>
    rw [aset_cons] at h
    by_cases hp : p.1 = k
    · rw [if_pos hp] at h
      simp only [List.map_cons, List.mem_cons] at h ⊢
      rcases h with h | h
      · right; exact h
      · left; right; exact h
    · rw [if_neg hp] at h
      simp only [List.map_cons, List.mem_cons] at h ⊢
      rcases h with h | h
      · left; left; exact h
      · rcases ih h with h' | h'
        · left; right; exact h'
        · right; exact h'

theorem keys_aset_nodup {α : Type} (l : List (String × α)) (k : String) (v : α)
    (h : (l.map Prod.fst).Nodup) : ((aset l k v).map Prod.fst).Nodup := by
  induction l with
  | nil => simp [aset_nil]
  | cons p rest ih =>
    rw [aset_cons]
    simp only [List.map_cons, List.nodup_cons] at h
    by_cases hp : p.1 = k
    · rw [if_pos hp]
      simp only [List.map_cons, List.nodup_cons]
      exact ⟨hp ▸ h.1, h.2⟩
    · rw [if_neg hp]
      simp only [List.map_cons, List.nodup_cons]
      refine ⟨fun hmem => ?_, ih h.2⟩
      rcases mem_keys_aset rest k p.1 v hmem with h' | h'
      · exact h.1 h'
      · exact hp h'

/-- The fundamental overlay law: looking up a key in `{**a, **b}` gives
`b`'s value when `b` has the key (keys of a dict are unique), else `a`'s. -/
theorem alookup_merge (a b : Rec) (k : String) (hb : (b.map Prod.fst).Nodup) :
    getField (mergeRec a b) k = (getField b k).or (getField a k) := by
  induction b generalizing a with
  | nil => simp [mergeRec, getField, alookup_nil, Option.none_or]
  | cons p rest ih =>
    rcases p with ⟨k', v'⟩
    simp only [List.map_cons, List.nodup_cons] at hb
    have hstep : mergeRec a ((k', v') :: rest) = mergeRec (setField a k' v') rest := rfl
    rw [hstep, ih _ hb.2]
    by_cases h : k' = k
    · subst h
      have hrest : getField (rest : Rec) k' = none :=
        alookup_eq_none_of_not_mem rest k' hb.1
      rw [hrest]
      show getField (setField a k' v') k' = _
      rw [show getField (setField a k' v') k' = some v' from alookup_aset_self a k' v']
      rw [show (getField ((k', v') :: rest) k') = some v' by
        rw [show getField ((k', v') :: rest) k' = _ from alookup_cons k' v' rest k']
        simp]
      rfl
    · rw [show getField ((k', v') :: rest) k = getField rest k by
        rw [show getField ((k', v') :: rest) k = _ from alookup_cons k' v' rest k]
        rw [if_neg h]
        rfl]
      cases hr : getField (rest : Rec) k with
      | some v => rfl
      | none =>
        simp only [Option.none_or]
        exact alookup_aset_ne a k' k v' h

/-! ## Lemmas about `setIfAbsent` and `fillDefaults` -/

theorem getField_setIfAbsent_self (r : Rec) (k : String) (v : JVal) :
    getField (TinyDBHandler.setIfAbsent r k v) k = some ((getField r k).getD v) := by
  unfold TinyDBHandler.setIfAbsent
  by_cases h : (getField r k).isSome
  · rw [if_pos h]
    rcases Option.isSome_iff_exists.mp h with ⟨w, hw⟩
    rw [hw]
    rfl
  · rw [if_neg h]
    have hn : getField r k = none := Option.not_isSome_iff_eq_none.mp h
    show alookup (aset r k v) k = _
    rw [alookup_aset_self, hn]
    rfl

theorem getField_setIfAbsent_ne (r : Rec) (k k' : String) (v : JVal) (h : k ≠ k') :
    getField (TinyDBHandler.setIfAbsent r k v) k' = getField r k' := by
  unfold TinyDBHandler.setIfAbsent
  by_cases hs : (getField r k).isSome
  · rw [if_pos hs]
  · rw [if_neg hs]
    exact alookup_aset_ne r k k' v h

theorem mem_keys_setIfAbsent (r : Rec) (k : String) (v : JVal) (a : String)
    (h : a ∈ (TinyDBHandler.setIfAbsent r k v).map Prod.fst) :
    a ∈ r.map Prod.fst ∨ a = k := by
  unfold TinyDBHandler.setIfAbsent at h
  by_cases hs : (getField r k).isSome
  · rw [if_pos hs] at h
    exact Or.inl h
  · rw [if_neg hs] at h
    exact mem_keys_aset r k a v h

theorem getField_fillDefaults_id (data : Rec) (ts uuid : String) :
    getField (TinyDBHandler.fillDefaults data ts uuid) "id" =
      some ((getField data "id").getD (.jstr uuid)) := by
  unfold TinyDBHandler.fillDefaults
  rw [getField_setIfAbsent_self]
  rw [getField_setIfAbsent_ne _ _ _ _ (by decide)]
  rw [getField_setIfAbsent_ne _ _ _ _ (by decide)]

theorem getField_fillDefaults_created (data : Rec) (ts uuid : String) :
    getField (TinyDBHandler.fillDefaults data ts uuid) "created_at" =
      some ((getField data "created_at").getD (.jstr ts)) := by
  unfold TinyDBHandler.fillDefaults
  rw [getField_setIfAbsent_ne _ _ _ _ (by decide)]
  rw [getField_setIfAbsent_ne _ _ _ _ (by decide)]
  rw [getField_setIfAbsent_self]

theorem getField_fillDefaults_updated (data : Rec) (ts uuid : String) :
    getField (TinyDBHandler.fillDefaults data ts uuid) "updated_at" =
      some ((getField (TinyDBHandler.setIfAbsent data "created_at" (.jstr ts))
              "updated_at").getD (.jstr ts)) := by
  unfold TinyDBHandler.fillDefaults
  rw [getField_setIfAbsent_ne _ _ _ _ (by decide)]
  rw [getField_setIfAbsent_self]

theorem getField_fillDefaults_updated' (data : Rec) (ts uuid : String) :
    getField (TinyDBHandler.fillDefaults data ts uuid) "updated_at" =
      some ((getField data "updated_at").getD (.jstr ts)) := by
  rw [getField_fillDefaults_updated]
  rw [getField_setIfAbsent_ne _ _ _ _ (by decide)]

theorem getField_fillDefaults_other (data : Rec) (ts uuid : String) (k : String)
    (h1 : k ≠ "created_at") (h2 : k ≠ "updated_at") (h3 : k ≠ "id") :
    getField (TinyDBHandler.fillDefaults data ts uuid) k = getField data k := by
  unfold TinyDBHandler.fillDefaults
  rw [getField_setIfAbsent_ne _ _ _ _ (Ne.symm h3)]
  rw [getField_setIfAbsent_ne _ _ _ _ (Ne.symm h2)]
  rw [getField_setIfAbsent_ne _ _ _ _ (Ne.symm h1)]

theorem mem_keys_fillDefaults (data : Rec) (ts uuid : String) (a : String)
    (h : a ∈ (TinyDBHandler.fillDefaults data ts uuid).map Prod.fst) :
    a ∈ data.map Prod.fst ∨ a = "id" ∨ a = "created_at" ∨ a = "updated_at" := by
  unfold TinyDBHandler.fillDefaults at h
  rcases mem_keys_setIfAbsent _ _ _ _ h with h' | h'
  · rcases mem_keys_setIfAbsent _ _ _ _ h' with h'' | h''
    · rcases mem_keys_setIfAbsent _ _ _ _ h'' with h3 | h3
      · exact Or.inl h3
      · exact Or.inr (Or.inr (Or.inl h3))
    · exact Or.inr (Or.inr (Or.inr h''))
  · exact Or.inr (Or.inl h')

/-! ## List scan lemmas -/

/-- The string branch of `get_by_id` (first hit of a `search`) is the first
record in table order whose `id` field matches. -/
theorem filter_head_eq_find (docs : List (Nat × Rec)) (q : Rec → Bool) :
    ((docs.filter (fun p => q p.2)).head?).map Prod.snd = (docs.map Prod.snd).find? q := by
  induction docs with
  | nil => rfl
  | cons p rest ih =>
    simp only [List.filter_cons, List.map_cons]
    cases h : q p.2 with
    | true => simp [List.find?_cons, h]
    | false =>
      simp [List.find?_cons, h, ih]
      rfl

/-- Sequence-number lookup: with unique sequence numbers, `find?` by number
returns exactly the table entry with that number. -/
theorem find_key_iff (docs : List (Nat × Rec)) (n : Nat) (r : Rec)
    (h : (docs.map Prod.fst).Nodup) :
    (docs.find? (fun p => p.1 == n)).map Prod.snd = some r ↔ (n, r) ∈ docs := by
  induction docs with
  | nil => simp
  | cons p rest ih =>
    rcases p with ⟨m, s⟩
    simp only [List.map_cons, List.nodup_cons] at h
    by_cases hm : m = n
    · subst hm
      rw [List.find?_cons_of_pos _ (by simp)]
      simp only [Option.map_some', List.mem_cons]
      constructor
      · intro h'
        injection h' with h'
        subst h'
        exact Or.inl rfl
      · rintro (h' | h')
        · rw [(Prod.mk.injEq _ _ _ _).mp h'.symm |>.2]
        · exact absurd (List.mem_map_of_mem Prod.fst h') h.1
    · rw [List.find?_cons_of_neg _ (by simp [hm])]
      rw [ih h.2]
      simp only [List.mem_cons]
      constructor
      · exact fun h' => Or.inr h'
      · rintro (h' | h')
        · exact absurd ((Prod.mk.injEq _ _ _ _).mp h').1.symm hm
        · exact h'

theorem length_filter_not_add (l : List (Nat × Rec)) (p : Nat × Rec → Bool) :
    (l.filter (fun a => !p a)).length + (l.filter p).length = l.length := by
  induction l with
  | nil => rfl
  | cons a rest ih =>
    cases h : p a <;> simp [List.filter_cons, h] <;> omega

theorem filter_pos_iff_any (l : List (Nat × Rec)) (p : Nat × Rec → Bool) :
    0 < (l.filter p).length ↔ l.any p = true := by
  induction l with
  | nil => simp
  | cons a rest ih =>
    cases h : p a <;> simp [List.filter_cons, h, ih]

theorem filter_not_filter_self (l : List (Nat × Rec)) (p : Nat × Rec → Bool) :
    (l.filter (fun a => !p a)).filter p = [] := by
  induction l with
  | nil => rfl
  | cons a rest ih =>
    cases h : p a <;> simp [List.filter_cons, h, ih]

/-- Applying a patch to every matching document moves the first match along:
if the patch cannot break the match predicate, the first match afterwards is
the patched first match from before. -/
theorem filter_head_map_update (docs : List (Nat × Rec)) (P : Nat × Rec → Bool)
    (g : Rec → Rec) (hg : ∀ p, P p = true → P (p.1, g p.2) = true) :
    ((docs.map (fun p => if P p then (p.1, g p.2) else p)).filter P).head? =
      ((docs.filter P).head?).map (fun p => (p.1, g p.2)) := by
  induction docs with
  | nil => rfl
  | cons p rest ih =>
    simp only [List.map_cons, List.filter_cons]
    cases h : P p with
    | true => simp [h, hg p h]
    | false => simp [h, ih]

/-! ## Mutation sequences and state-level lemmas -/

/-- A mutating Engine operation, used to quantify over arbitrary intervening
mutations between a `backup` and a `restore`. -/
inductive Op where
  | opInsert : Rec → String → String → Op
  | opUpdate : DocKey → Rec → String → Op
  | opDelete : DocKey → Op
  | opTruncate : Op

/-- The state after one mutating operation (a failing insert/update leaves
the state as the handler left it, which the no-partial-write results show is
the input state). -/
def applyOp (st : SysState) : Op → SysState
  | .opInsert d t u => (TinyDBHandler.insert st d t u).1
  | .opUpdate k d t => (TinyDBHandler.update st k d t).1
  | .opDelete k => (TinyDBHandler.delete st k).1
  | .opTruncate => TinyDBHandler.truncate st

/-- The state after a sequence of mutating operations. -/
def applyOps (st : SysState) (ops : List Op) : SysState := ops.foldl applyOp st

theorem backups_applyOp (st : SysState) (op : Op) :
    (applyOp st op).backups = st.backups := by
  cases op with
  | opInsert d t u =>
    show (TinyDBHandler.insert st d t u).1.backups = st.backups
    unfold TinyDBHandler.insert
    cases TinyDBHandler.validateData st.schema d <;> rfl
  | opUpdate k d t =>
    show (TinyDBHandler.update st k d t).1.backups = st.backups
    unfold TinyDBHandler.update
    split
    · rfl
    · split
      · rfl
      · rfl
  | opDelete k => rfl
  | opTruncate => rfl

theorem backups_applyOps (st : SysState) (ops : List Op) :
    (applyOps st ops).backups = st.backups := by
  induction ops generalizing st with
  | nil => rfl
  | cons op rest ih =>
    show (applyOps (applyOp st op) rest).backups = st.backups
    rw [ih, backups_applyOp]

/-- `get_by_id` reads nothing but the cached table. -/
theorem get_by_id_congr (st st' : SysState) (h : st.cache.docs = st'.cache.docs)
    (k : DocKey) : TinyDBHandler.get_by_id st k = TinyDBHandler.get_by_id st' k := by
  cases k <;> simp [TinyDBHandler.get_by_id, h]

theorem not_isEmpty_iff_length_pos {α : Type} (l : List α) :
    (!l.isEmpty) = true ↔ 0 < l.length := by
  cases l <;> simp

theorem matchesKey_str (s : String) :
    TinyDBHandler.matchesKey (DocKey.str s) = fun p => TinyDBHandler.idMatch s p.2 := rfl

theorem matchesKey_int (n : Nat) :
    TinyDBHandler.matchesKey (DocKey.int n) = fun p => p.1 == n := rfl

/-- The state and success flag of `delete`, in terms of which documents the
identifier addresses. -/
theorem delete_generic (st : SysState) (k : DocKey) :
    (TinyDBHandler.delete st k).1.cache.docs =
      st.cache.docs.filter (fun p => !TinyDBHandler.matchesKey k p) ∧
    ((TinyDBHandler.delete st k).2 = true ↔
      0 < (st.cache.docs.filter (TinyDBHandler.matchesKey k)).length) := by
  cases k with
  | str s =>
    refine ⟨rfl, ?_⟩
    rw [matchesKey_str]
    show (!((st.cache.docs.filter (fun p => TinyDBHandler.idMatch s p.2)).map
        Prod.fst).isEmpty) = true ↔ _
    rw [not_isEmpty_iff_length_pos, List.length_map]
  | int n =>
    refine ⟨rfl, ?_⟩
    rw [matchesKey_int]
    show (!(if st.cache.docs.any (fun p => p.1 == n) then [n] else []).isEmpty) = true ↔ _
    have hiff := filter_pos_iff_any st.cache.docs (fun p => p.1 == n)
    by_cases h : st.cache.docs.any (fun p => p.1 == n) = true
    · rw [if_pos h]
      exact ⟨fun _ => hiff.mpr h, fun _ => rfl⟩
    · rw [if_neg h]
      constructor
      · intro hc
        simp at hc
      · intro hc
        exact absurd (hiff.mp hc) h

theorem validateData_none (d : Rec) : TinyDBHandler.validateData none d = .ok () := rfl

theorem validateData_some (s : Schema) (d : Rec) :
    TinyDBHandler.validateData (some s) d =
      if validateRec s d then .ok ()
      else .error (.validationError "Data validation failed") := rfl

/-! ## Claim theorems -/

/-- C5: `get_by_id` dispatches on the identifier's type: a string identifier
performs a linear scan and returns the first record (in table order) whose
`id` field equals it, an integer identifier addresses exactly the table
entry carrying that sequence number; in both cases a miss yields `none`.
`get_by_id` is a pure read — it takes the state and returns only an
optional record, so it cannot mutate the collection. -/
theorem get_by_id_dispatch (st : SysState) (s : String) (n : Nat) (r : Rec)
    (hWF : Table.WF st.cache) :
    TinyDBHandler.get_by_id st (DocKey.str s) =
      (TinyDBHandler.get_all st).find? (TinyDBHandler.idMatch s) ∧
    (TinyDBHandler.get_by_id st (DocKey.int n) = some r ↔ (n, r) ∈ st.cache.docs) := by
  constructor
  · exact filter_head_eq_find st.cache.docs (TinyDBHandler.idMatch s)
  · exact find_key_iff st.cache.docs n r hWF.1

/-- Witness data: a valid one-record projects collection, flushed. -/
def wDemoRec : Rec :=
  [("id", .jstr "p1"), ("name", .jstr "Demo"), ("status", .jstr "draft"),
   ("created_at", .jstr "T1"), ("updated_at", .jstr "T1")]

def wState : SysState :=
  ⟨some PROJECT_SCHEMA, "projects.json", ⟨2, [(1, wDemoRec)]⟩, [(1, wDemoRec)], []⟩

theorem get_by_id_dispatch_witness :
    TinyDBHandler.get_by_id wState (DocKey.str "p1") =
      (TinyDBHandler.get_all wState).find? (TinyDBHandler.idMatch "p1") ∧
    (TinyDBHandler.get_by_id wState (DocKey.int 1) = some wDemoRec ↔
      (1, wDemoRec) ∈ wState.cache.docs) :=
  get_by_id_dispatch wState "p1" 1 wDemoRec ⟨by decide, by decide⟩

/-- Discriminates a result that failed with `NotFoundException`. -/
def isNotFoundResult : Except DBError Bool → Bool
  | .error (.notFoundError _) => true
  | _ => false

def cex7St : SysState := ⟨some PROJECT_SCHEMA, "projects.json", ⟨1, []⟩, [], []⟩

/-- C7 counterexample: restoring from a missing backup file surfaces
`DatabaseException("Restore failed: Backup file not found: ...")` — the
`FileNotFoundError` raised inside `restore`'s `try` block is caught by its
own `except Exception` and wrapped — not `NotFoundException` as the spec
claims. -/
theorem restore_missing_not_notfound_cex :
    (TinyDBHandler.restore cex7St "backups/missing.json").2 =
      .error (.databaseError
        "Restore failed: Backup file not found: backups/missing.json") ∧
    isNotFoundResult (TinyDBHandler.restore cex7St "backups/missing.json").2 = false :=
  ⟨rfl, rfl⟩

/-- C7 (amended): when the backup file does not exist, `restore` fails with
`DatabaseException` wrapping the file-not-found message (not with
`NotFoundException`), and the live collection file and in-memory cache are
unchanged. -/
theorem restore_missing_backup (st : SysState) (p : String)
    (h : alookup st.backups p = none) :
    TinyDBHandler.restore st p =
      (st, .error (.databaseError ("Restore failed: Backup file not found: " ++ p))) ∧
    (TinyDBHandler.restore st p).1.cache = st.cache ∧
    (TinyDBHandler.restore st p).1.disk = st.disk ∧
    isNotFoundResult (TinyDBHandler.restore st p).2 = false := by
  have h1 : TinyDBHandler.restore st p =
      (st, .error (.databaseError ("Restore failed: Backup file not found: " ++ p))) := by
    unfold TinyDBHandler.restore
    rw [h]
  refine ⟨h1, by rw [h1], by rw [h1], ?_⟩
  rw [h1]
  rfl

theorem restore_missing_backup_witness :
    TinyDBHandler.restore cex7St "backups/missing.json" =
      (cex7St, .error (.databaseError
        ("Restore failed: Backup file not found: " ++ "backups/missing.json"))) ∧
    (TinyDBHandler.restore cex7St "backups/missing.json").1.cache = cex7St.cache ∧
    (TinyDBHandler.restore cex7St "backups/missing.json").1.disk = cex7St.disk ∧
    isNotFoundResult (TinyDBHandler.restore cex7St "backups/missing.json").2 = false :=
  restore_missing_backup cex7St "backups/missing.json" rfl

/-- C2: `update` validates the merged view — the existing record's fields
overlaid with the patch's — against the collection's schema, and raises
`ValidationException` whenever that merged view violates the schema, even
when the patch alone is schema-valid in isolation; the state, including the
backing file, is returned untouched (no storage write). -/
theorem update_validates_merged_view (st : SysState) (key : DocKey) (patch : Rec)
    (ts : String) (s : Schema) (existing : Rec)
    (hs : st.schema = some s)
    (hget : TinyDBHandler.get_by_id st key = some existing)
    (hpatch : validateRec s patch = true)
    (hmerged : validateRec s (mergeRec existing patch) = false) :
    TinyDBHandler.update st key patch ts =
      (st, .error (.validationError "Data validation failed")) := by
  have hv : TinyDBHandler.validateData st.schema (mergeRec existing patch) =
      .error (.validationError "Data validation failed") := by
    rw [hs, validateData_some, hmerged]
    simp
  unfold TinyDBHandler.update
  simp only [hget, hv]

/-- Witness data for the merged-view validation: a schema typing `status`
as an enumerated string and requiring `name`; the stored record carries an
ill-typed `status`, the patch alone is schema-valid, the merged view is
not. -/
def wSchemaNS : Schema :=
  { properties :=
      [ ("name", ⟨[.tString], none⟩)
      , ("status", ⟨[.tString], some ["draft", "archived"]⟩) ]
    required := ["name"] }

def wBadStatusRec : Rec := [("id", .jstr "p1"), ("status", .jnum 5)]

def wStateC2 : SysState :=
  ⟨some wSchemaNS, "projects.json", ⟨2, [(1, wBadStatusRec)]⟩, [(1, wBadStatusRec)], []⟩

theorem update_validates_merged_view_witness :
    TinyDBHandler.update wStateC2 (DocKey.str "p1") [("name", .jstr "Demo")] "T2" =
      (wStateC2, .error (.validationError "Data validation failed")) :=
  update_validates_merged_view wStateC2 (DocKey.str "p1") [("name", .jstr "Demo")] "T2"
    wSchemaNS wBadStatusRec rfl rfl (by decide) (by decide)

/-- C3: whenever `insert` or `update` raises `ValidationException`, the
collection state is unchanged — no partial write: the returned state is the
input state, so `count()` and every stored record are exactly as before.
The two operations are covered by independent implications, so each no-op
guarantee holds on its own (a failing insert needs no co-existing failing
update, and vice versa). -/
theorem validation_failure_no_partial_write (st : SysState) (data : Rec)
    (ts uuid : String) (key : DocKey) (patch : Rec) (ts2 m1 m2 : String) :
    ((TinyDBHandler.insert st data ts uuid).2 = .error (.validationError m1) →
      (TinyDBHandler.insert st data ts uuid).1 = st ∧
      TinyDBHandler.count (TinyDBHandler.insert st data ts uuid).1 =
        TinyDBHandler.count st ∧
      TinyDBHandler.get_all (TinyDBHandler.insert st data ts uuid).1 =
        TinyDBHandler.get_all st) ∧
    ((TinyDBHandler.update st key patch ts2).2 = .error (.validationError m2) →
      (TinyDBHandler.update st key patch ts2).1 = st ∧
      TinyDBHandler.count (TinyDBHandler.update st key patch ts2).1 =
        TinyDBHandler.count st ∧
      TinyDBHandler.get_all (TinyDBHandler.update st key patch ts2).1 =
        TinyDBHandler.get_all st) := by
  constructor
  · intro hi
    have h1 : (TinyDBHandler.insert st data ts uuid).1 = st := by
      unfold TinyDBHandler.insert at hi ⊢
      cases h : TinyDBHandler.validateData st.schema data with
      | error e => simp only [h]
      | ok u => simp [h] at hi
    exact ⟨h1, by rw [h1], by rw [h1]⟩
  · intro hu
    have h2 : (TinyDBHandler.update st key patch ts2).1 = st := by
      unfold TinyDBHandler.update at hu ⊢
      cases hg : TinyDBHandler.get_by_id st key with
      | none => simp [hg] at hu
      | some ex =>
        simp only [hg]
        cases hv : TinyDBHandler.validateData st.schema (mergeRec ex patch) with
        | error e => simp only [hv]
        | ok u => simp [hg, hv] at hu
    exact ⟨h2, by rw [h2], by rw [h2]⟩

/-- Witness for no-partial-write: a record violating the required `name`
(scenario C), and a patch whose merged view still lacks `name`; both
implications are discharged at their concrete failing calls. -/
theorem validation_failure_no_partial_write_witness :
    (TinyDBHandler.insert wStateC2 [("id", .jstr "p2")] "T2" "u2").1 = wStateC2 ∧
    TinyDBHandler.count (TinyDBHandler.insert wStateC2 [("id", .jstr "p2")] "T2" "u2").1 =
      TinyDBHandler.count wStateC2 ∧
    TinyDBHandler.get_all (TinyDBHandler.insert wStateC2 [("id", .jstr "p2")] "T2" "u2").1 =
      TinyDBHandler.get_all wStateC2 ∧
    (TinyDBHandler.update wStateC2 (DocKey.str "p1") [("x", .jnull)] "T2").1 = wStateC2 ∧
    TinyDBHandler.count (TinyDBHandler.update wStateC2 (DocKey.str "p1") [("x", .jnull)] "T2").1 =
      TinyDBHandler.count wStateC2 ∧
    TinyDBHandler.get_all (TinyDBHandler.update wStateC2 (DocKey.str "p1") [("x", .jnull)] "T2").1 =
      TinyDBHandler.get_all wStateC2 := by
  have h := validation_failure_no_partial_write wStateC2 [("id", .jstr "p2")] "T2" "u2"
    (DocKey.str "p1") [("x", .jnull)] "T2" "Data validation failed" "Data validation failed"
  exact ⟨(h.1 rfl).1, (h.1 rfl).2.1, (h.1 rfl).2.2,
    (h.2 rfl).1, (h.2 rfl).2.1, (h.2 rfl).2.2⟩

theorem getField_setField_self (r : Rec) (k : String) (v : JVal) :
    getField (setField r k v) k = some v := alookup_aset_self r k v

theorem getField_setField_ne (r : Rec) (k k' : String) (v : JVal) (h : k ≠ k') :
    getField (setField r k v) k' = getField r k' := alookup_aset_ne r k k' v h

theorem getField_none_of_not_mem (r : Rec) (k : String) (h : k ∉ r.map Prod.fst) :
    getField r k = none := alookup_eq_none_of_not_mem r k h

/-- Counterexample data for the update/get round trip. -/
def cex1Rec : Rec := [("id", .jstr "p1"), ("name", .jstr "Demo")]

def cex1St : SysState :=
  ⟨none, "projects.json", ⟨2, [(1, cex1Rec)]⟩, [(1, cex1Rec)], []⟩

/-- C1 counterexample: a patch may change the `id` field itself. Updating
`"p1"` with patch `{"id": "p2"}` succeeds (returns `True`), but
`get_by_id("p1")` afterwards finds nothing — not the prior record with the
patch overlaid, as the claim requires for every patch. -/
theorem update_can_change_id_cex :
    (TinyDBHandler.update cex1St (DocKey.str "p1") [("id", .jstr "p2")] "T2").2 =
      .ok true ∧
    TinyDBHandler.get_by_id
      (TinyDBHandler.update cex1St (DocKey.str "p1") [("id", .jstr "p2")] "T2").1
      (DocKey.str "p1") = none :=
  ⟨rfl, rfl⟩

/-- C1 (amended): for a record stored under application identifier `i`, a
successful `update(i, patch)` whose patch does not set `id` to a different
value, followed by `get_by_id(i)`, yields exactly the prior record with the
patch's fields overlaid and `updated_at` set to the fresh timestamp; every
field of the prior record not present in the patch — other than
`updated_at` — is unchanged. -/
theorem update_then_get_overlay (st : SysState) (i : String) (patch : Rec)
    (ts : String) (prior : Rec)
    (hget : TinyDBHandler.get_by_id st (DocKey.str i) = some prior)
    (hnodup : (patch.map Prod.fst).Nodup)
    (hid : getField patch "id" = none ∨ getField patch "id" = some (.jstr i))
    (hval : TinyDBHandler.validateData st.schema (mergeRec prior patch) = .ok ()) :
    (TinyDBHandler.update st (DocKey.str i) patch ts).2 = .ok true ∧
    TinyDBHandler.get_by_id (TinyDBHandler.update st (DocKey.str i) patch ts).1
        (DocKey.str i) =
      some (mergeRec prior (setField patch "updated_at" (.jstr ts))) ∧
    getField (mergeRec prior (setField patch "updated_at" (.jstr ts))) "updated_at" =
      some (.jstr ts) ∧
    (∀ k, k ∉ patch.map Prod.fst → k ≠ "updated_at" →
      getField (mergeRec prior (setField patch "updated_at" (.jstr ts))) k =
        getField prior k) ∧
    (∀ k v, getField patch k = some v → k ≠ "updated_at" →
      getField (mergeRec prior (setField patch "updated_at" (.jstr ts))) k = some v) := by
  have hnodup' : ((setField patch "updated_at" (.jstr ts)).map Prod.fst).Nodup :=
    keys_aset_nodup patch "updated_at" (.jstr ts) hnodup
  have hidd : getField (setField patch "updated_at" (.jstr ts)) "id" = getField patch "id" :=
    getField_setField_ne patch "updated_at" "id" (.jstr ts) (by decide)
  have hpres : ∀ p : Nat × Rec, TinyDBHandler.idMatch i p.2 = true →
      TinyDBHandler.idMatch i
        (mergeRec p.2 (setField patch "updated_at" (.jstr ts))) = true := by
    intro p hp
    have hm := alookup_merge p.2 (setField patch "updated_at" (.jstr ts)) "id" hnodup'
    rw [hidd] at hm
    rcases hid with h0 | h0
    · rw [h0, Option.none_or] at hm
      unfold TinyDBHandler.idMatch at hp ⊢
      rw [hm]
      exact hp
    · rw [h0] at hm
      unfold TinyDBHandler.idMatch
      rw [hm]
      simp
  have hget' : ((st.cache.docs.filter
      (fun p => TinyDBHandler.idMatch i p.2)).head?).map Prod.snd = some prior := hget
  rcases hf : st.cache.docs.filter (fun p => TinyDBHandler.idMatch i p.2) with _ | ⟨hd, tl⟩
  · rw [hf] at hget'
    simp at hget'
  · rw [hf] at hget'
    simp only [List.head?_cons, Option.map_some'] at hget'
    have hhd : hd.2 = prior := Option.some.inj hget'
    have hupd : TinyDBHandler.update st (DocKey.str i) patch ts =
        ({ st with
            cache := ⟨st.cache.next_id,
              st.cache.docs.map (fun p =>
                if TinyDBHandler.idMatch i p.2 then
                  (p.1, mergeRec p.2 (setField patch "updated_at" (.jstr ts)))
                else p)⟩,
            disk := st.cache.docs.map (fun p =>
              if TinyDBHandler.idMatch i p.2 then
                (p.1, mergeRec p.2 (setField patch "updated_at" (.jstr ts)))
              else p) },
          .ok true) := by
      unfold TinyDBHandler.update
      simp only [hget, hval, matchesKey_str]
      rw [hf]
      simp
    refine ⟨by rw [hupd], ?_, ?_, ?_, ?_⟩
    · rw [hupd]
      show ((List.filter (fun p => TinyDBHandler.idMatch i p.2)
          (st.cache.docs.map (fun p =>
            if TinyDBHandler.idMatch i p.2 then
              (p.1, mergeRec p.2 (setField patch "updated_at" (.jstr ts)))
            else p))).head?).map Prod.snd = _
      rw [filter_head_map_update st.cache.docs
        (fun p => TinyDBHandler.idMatch i p.2)
        (fun r => mergeRec r (setField patch "updated_at" (.jstr ts))) hpres]
      rw [hf]
      simp only [List.head?_cons, Option.map_some']
      rw [hhd]
    · rw [alookup_merge prior _ "updated_at" hnodup',
        getField_setField_self patch "updated_at" (.jstr ts)]
      rfl
    · intro k hk1 hk2
      rw [alookup_merge prior _ k hnodup',
        getField_setField_ne patch "updated_at" k (.jstr ts) (Ne.symm hk2),
        getField_none_of_not_mem patch k hk1, Option.none_or]
    · intro k v hv hk2
      rw [alookup_merge prior _ k hnodup',
        getField_setField_ne patch "updated_at" k (.jstr ts) (Ne.symm hk2), hv]
      rfl

/-- Witness data: scenario B — patch `{"status": "archived"}` on the demo
record. -/
theorem update_then_get_overlay_witness :
    (TinyDBHandler.update wState (DocKey.str "p1") [("status", .jstr "archived")] "T2").2 =
      .ok true ∧
    TinyDBHandler.get_by_id
        (TinyDBHandler.update wState (DocKey.str "p1") [("status", .jstr "archived")] "T2").1
        (DocKey.str "p1") =
      some (mergeRec wDemoRec
        (setField [("status", .jstr "archived")] "updated_at" (.jstr "T2"))) ∧
    getField (mergeRec wDemoRec
        (setField [("status", .jstr "archived")] "updated_at" (.jstr "T2"))) "updated_at" =
      some (.jstr "T2") ∧
    (∀ k, k ∉ ([("status", JVal.jstr "archived")] : Rec).map Prod.fst → k ≠ "updated_at" →
      getField (mergeRec wDemoRec
        (setField [("status", .jstr "archived")] "updated_at" (.jstr "T2"))) k =
        getField wDemoRec k) ∧
    (∀ k v, getField [("status", .jstr "archived")] k = some v → k ≠ "updated_at" →
      getField (mergeRec wDemoRec
        (setField [("status", .jstr "archived")] "updated_at" (.jstr "T2"))) k = some v) :=
  update_then_get_overlay wState "p1" [("status", .jstr "archived")] "T2" wDemoRec
    rfl (by decide) (Or.inl rfl) rfl

/-- C6: for every state and either kind of identifier, `delete` returns
`True` exactly when it actually removed at least one record (the collection
shrank) — no-match and multi-match deletes included; and after deleting an
identifier with exactly one matching record, `get_by_id` on that identifier
is `none`, `count()` drops by exactly one, and a second `delete` of the
same identifier returns `False`. -/
theorem delete_removes_and_reports (st : SysState) (k : DocKey) :
    ((TinyDBHandler.delete st k).2 = true ↔
      TinyDBHandler.count (TinyDBHandler.delete st k).1 < TinyDBHandler.count st) ∧
    ((st.cache.docs.filter (TinyDBHandler.matchesKey k)).length = 1 →
      (TinyDBHandler.delete st k).2 = true ∧
      TinyDBHandler.count (TinyDBHandler.delete st k).1 + 1 = TinyDBHandler.count st ∧
      TinyDBHandler.get_by_id (TinyDBHandler.delete st k).1 k = none ∧
      (TinyDBHandler.delete (TinyDBHandler.delete st k).1 k).2 = false) := by
  obtain ⟨hdocs, hiff⟩ := delete_generic st k
  have hlen := length_filter_not_add st.cache.docs (TinyDBHandler.matchesKey k)
  have hc1 : TinyDBHandler.count (TinyDBHandler.delete st k).1 =
      (st.cache.docs.filter (fun p => !TinyDBHandler.matchesKey k p)).length := by
    show (TinyDBHandler.delete st k).1.cache.docs.length = _
    rw [hdocs]
  have hc0 : TinyDBHandler.count st = st.cache.docs.length := rfl
  have hgen : (TinyDBHandler.delete st k).2 = true ↔
      TinyDBHandler.count (TinyDBHandler.delete st k).1 < TinyDBHandler.count st := by
    rw [hiff, hc1, hc0]
    omega
  refine ⟨hgen, ?_⟩
  intro hone
  have hcount : TinyDBHandler.count (TinyDBHandler.delete st k).1 + 1 =
      TinyDBHandler.count st := by
    rw [hc1, hc0]
    omega
  have hsucc : (TinyDBHandler.delete st k).2 = true := hiff.mpr (by omega)
  have hfil2 : (TinyDBHandler.delete st k).1.cache.docs.filter
      (TinyDBHandler.matchesKey k) = [] := by
    rw [hdocs]
    exact filter_not_filter_self st.cache.docs (TinyDBHandler.matchesKey k)
  obtain ⟨hdocs2, hiff2⟩ := delete_generic (TinyDBHandler.delete st k).1 k
  have hsecond : (TinyDBHandler.delete (TinyDBHandler.delete st k).1 k).2 = false := by
    cases hb : (TinyDBHandler.delete (TinyDBHandler.delete st k).1 k).2 with
    | false => rfl
    | true =>
      have hpos := hiff2.mp hb
      rw [hfil2] at hpos
      simp at hpos
  have hnomatch : ∀ p ∈ (TinyDBHandler.delete st k).1.cache.docs,
      ¬ TinyDBHandler.matchesKey k p = true :=
    List.filter_eq_nil_iff.mp hfil2
  have hnone : TinyDBHandler.get_by_id (TinyDBHandler.delete st k).1 k = none := by
    cases k with
    | str s =>
      show (((TinyDBHandler.delete st (DocKey.str s)).1.cache.docs.filter
        (fun p => TinyDBHandler.idMatch s p.2)).head?).map Prod.snd = none
      have hf : (TinyDBHandler.delete st (DocKey.str s)).1.cache.docs.filter
          (fun p => TinyDBHandler.idMatch s p.2) = [] := by
        have h' := hfil2
        rw [matchesKey_str] at h'
        exact h'
      rw [hf]
      rfl
    | int n =>
      show ((TinyDBHandler.delete st (DocKey.int n)).1.cache.docs.find?
        (fun p => p.1 == n)).map Prod.snd = none
      have hf : (TinyDBHandler.delete st (DocKey.int n)).1.cache.docs.find?
          (fun p => p.1 == n) = none := by
        apply List.find?_eq_none.mpr
        intro p hp
        have h' := hnomatch p hp
        rw [matchesKey_int] at h'
        exact fun hc => h' hc
      rw [hf]
      rfl
  exact ⟨hsucc, hcount, hnone, hsecond⟩

/-- Witness: scenario D on the one-record collection, with the
exactly-one-match hypothesis of the scenario part discharged concretely. -/
theorem delete_removes_and_reports_witness :
    ((TinyDBHandler.delete wState (DocKey.str "p1")).2 = true ↔
      TinyDBHandler.count (TinyDBHandler.delete wState (DocKey.str "p1")).1 <
        TinyDBHandler.count wState) ∧
    ((TinyDBHandler.delete wState (DocKey.str "p1")).2 = true ∧
      TinyDBHandler.count (TinyDBHandler.delete wState (DocKey.str "p1")).1 + 1 =
        TinyDBHandler.count wState ∧
      TinyDBHandler.get_by_id (TinyDBHandler.delete wState (DocKey.str "p1")).1
        (DocKey.str "p1") = none ∧
      (TinyDBHandler.delete (TinyDBHandler.delete wState (DocKey.str "p1")).1
        (DocKey.str "p1")).2 = false) :=
  ⟨(delete_removes_and_reports wState (DocKey.str "p1")).1,
   (delete_removes_and_reports wState (DocKey.str "p1")).2 (by decide)⟩

theorem find_append_last (l : List (Nat × Rec)) (n : Nat) (r : Rec)
    (hl : ∀ p ∈ l, p.1 ≠ n) :
    (l ++ [(n, r)]).find? (fun p => p.1 == n) = some (n, r) := by
  induction l with
  | nil => simp
  | cons q rest ih =>
    rw [List.cons_append,
      List.find?_cons_of_neg _ (by simp [hl q (List.mem_cons_self q rest)])]
    exact ih (fun p hp => hl p (List.mem_cons_of_mem q hp))

/-- C8: on a successful insert the Engine generates a string identifier (the
uuid) only when the record carries no `id`, sets each of
`created_at`/`updated_at` to the clock reading only when absent, never
overwrites caller-supplied values of those three fields, and the stored
record — retrievable under the returned sequence number — equals the input
record with at most those three fields added. -/
theorem insert_fills_metadata (st : SysState) (data : Rec) (ts uuid : String)
    (hWF : Table.WF st.cache)
    (hval : TinyDBHandler.validateData st.schema data = .ok ()) :
    (TinyDBHandler.insert st data ts uuid).2 = .ok st.cache.next_id ∧
    TinyDBHandler.get_by_id (TinyDBHandler.insert st data ts uuid).1
        (DocKey.int st.cache.next_id) =
      some (TinyDBHandler.fillDefaults data ts uuid) ∧
    getField (TinyDBHandler.fillDefaults data ts uuid) "id" =
      some ((getField data "id").getD (.jstr uuid)) ∧
    getField (TinyDBHandler.fillDefaults data ts uuid) "created_at" =
      some ((getField data "created_at").getD (.jstr ts)) ∧
    getField (TinyDBHandler.fillDefaults data ts uuid) "updated_at" =
      some ((getField data "updated_at").getD (.jstr ts)) ∧
    (∀ k, k ≠ "id" → k ≠ "created_at" → k ≠ "updated_at" →
      getField (TinyDBHandler.fillDefaults data ts uuid) k = getField data k) ∧
    (∀ a ∈ (TinyDBHandler.fillDefaults data ts uuid).map Prod.fst,
      a ∈ data.map Prod.fst ∨ a = "id" ∨ a = "created_at" ∨ a = "updated_at") := by
  have hins : TinyDBHandler.insert st data ts uuid =
      ({ st with
          cache := ⟨st.cache.next_id + 1,
            st.cache.docs ++
              [(st.cache.next_id, TinyDBHandler.fillDefaults data ts uuid)]⟩,
          disk := st.cache.docs ++
            [(st.cache.next_id, TinyDBHandler.fillDefaults data ts uuid)] },
        .ok st.cache.next_id) := by
    unfold TinyDBHandler.insert
    simp only [hval]
  refine ⟨by rw [hins], ?_, getField_fillDefaults_id data ts uuid,
    getField_fillDefaults_created data ts uuid,
    getField_fillDefaults_updated' data ts uuid,
    fun k h1 h2 h3 => getField_fillDefaults_other data ts uuid k h2 h3 h1,
    fun a ha => mem_keys_fillDefaults data ts uuid a ha⟩
  rw [hins]
  show ((st.cache.docs ++
      [(st.cache.next_id, TinyDBHandler.fillDefaults data ts uuid)]).find?
      (fun p => p.1 == st.cache.next_id)).map Prod.snd = _
  rw [find_append_last st.cache.docs st.cache.next_id
    (TinyDBHandler.fillDefaults data ts uuid)
    (fun p hp => Nat.ne_of_lt (hWF.2 p hp))]
  rfl

/-- Witness data: a schema-free collection receiving a record with no
`id`/timestamps (all three generated), checked also on field-level facts. -/
def wStateFree : SysState := ⟨none, "notes.json", ⟨1, []⟩, [], []⟩

theorem insert_fills_metadata_witness :
    (TinyDBHandler.insert wStateFree [("name", .jstr "N")] "T1" "u1").2 =
      .ok wStateFree.cache.next_id ∧
    TinyDBHandler.get_by_id (TinyDBHandler.insert wStateFree [("name", .jstr "N")] "T1" "u1").1
        (DocKey.int wStateFree.cache.next_id) =
      some (TinyDBHandler.fillDefaults [("name", .jstr "N")] "T1" "u1") ∧
    getField (TinyDBHandler.fillDefaults [("name", .jstr "N")] "T1" "u1") "id" =
      some ((getField [("name", .jstr "N")] "id").getD (.jstr "u1")) ∧
    getField (TinyDBHandler.fillDefaults [("name", .jstr "N")] "T1" "u1") "created_at" =
      some ((getField [("name", .jstr "N")] "created_at").getD (.jstr "T1")) ∧
    getField (TinyDBHandler.fillDefaults [("name", .jstr "N")] "T1" "u1") "updated_at" =
      some ((getField [("name", .jstr "N")] "updated_at").getD (.jstr "T1")) ∧
    (∀ k, k ≠ "id" → k ≠ "created_at" → k ≠ "updated_at" →
      getField (TinyDBHandler.fillDefaults [("name", .jstr "N")] "T1" "u1") k =
        getField [("name", .jstr "N")] k) ∧
    (∀ a ∈ (TinyDBHandler.fillDefaults [("name", .jstr "N")] "T1" "u1").map Prod.fst,
      a ∈ ([("name", JVal.jstr "N")] : Rec).map Prod.fst ∨
        a = "id" ∨ a = "created_at" ∨ a = "updated_at") :=
  insert_fills_metadata wStateFree [("name", .jstr "N")] "T1" "u1"
    ⟨by decide, by decide⟩ rfl

/-- The state/result of a validated insert: append under the next sequence
number, bump the counter, flush. -/
theorem insert_ok (st : SysState) (data : Rec) (ts uuid : String)
    (hval : TinyDBHandler.validateData st.schema data = .ok ()) :
    TinyDBHandler.insert st data ts uuid =
      ({ st with
          cache := ⟨st.cache.next_id + 1,
            st.cache.docs ++
              [(st.cache.next_id, TinyDBHandler.fillDefaults data ts uuid)]⟩,
          disk := st.cache.docs ++
            [(st.cache.next_id, TinyDBHandler.fillDefaults data ts uuid)] },
        .ok st.cache.next_id) := by
  unfold TinyDBHandler.insert
  simp only [hval]

/-- C9: `insert` is not idempotent on duplicate application ids: two inserts
carrying the same `id` both succeed and receive distinct sequence numbers
assigned in strictly increasing order; `get_by_id` with that string id then
returns the first inserted record, and deleting by sequence number leaves
the counter untouched, so numbers are never reused. -/
theorem insert_duplicate_ids (st : SysState) (r1 r2 : Rec) (i : String)
    (ts1 u1 ts2 u2 : String)
    (hv1 : TinyDBHandler.validateData st.schema r1 = .ok ())
    (hv2 : TinyDBHandler.validateData st.schema r2 = .ok ())
    (hid1 : getField r1 "id" = some (.jstr i))
    (hid2 : getField r2 "id" = some (.jstr i))
    (hnone : ∀ p ∈ st.cache.docs, TinyDBHandler.idMatch i p.2 = false) :
    (TinyDBHandler.insert st r1 ts1 u1).2 = .ok st.cache.next_id ∧
    (TinyDBHandler.insert (TinyDBHandler.insert st r1 ts1 u1).1 r2 ts2 u2).2 =
      .ok (st.cache.next_id + 1) ∧
    st.cache.next_id < st.cache.next_id + 1 ∧
    TinyDBHandler.get_by_id
        (TinyDBHandler.insert (TinyDBHandler.insert st r1 ts1 u1).1 r2 ts2 u2).1
        (DocKey.str i) =
      some (TinyDBHandler.fillDefaults r1 ts1 u1) ∧
    (TinyDBHandler.delete
        (TinyDBHandler.insert (TinyDBHandler.insert st r1 ts1 u1).1 r2 ts2 u2).1
        (DocKey.int st.cache.next_id)).1.cache.next_id =
      (TinyDBHandler.insert
        (TinyDBHandler.insert st r1 ts1 u1).1 r2 ts2 u2).1.cache.next_id := by
  have hins1 := insert_ok st r1 ts1 u1 hv1
  have hins2 := insert_ok (TinyDBHandler.insert st r1 ts1 u1).1 r2 ts2 u2
    (by rw [hins1]; exact hv2)
  have hfid1 : getField (TinyDBHandler.fillDefaults r1 ts1 u1) "id" =
      some (.jstr i) := by
    rw [getField_fillDefaults_id, hid1]
    rfl
  have him1 : TinyDBHandler.idMatch i (TinyDBHandler.fillDefaults r1 ts1 u1) = true := by
    unfold TinyDBHandler.idMatch
    rw [hfid1]
    simp
  have hdocs2 : (TinyDBHandler.insert
      (TinyDBHandler.insert st r1 ts1 u1).1 r2 ts2 u2).1.cache.docs =
      (st.cache.docs ++ [(st.cache.next_id, TinyDBHandler.fillDefaults r1 ts1 u1)]) ++
        [(st.cache.next_id + 1, TinyDBHandler.fillDefaults r2 ts2 u2)] := by
    rw [hins2, hins1]
  refine ⟨by rw [hins1], by rw [hins2, hins1], by omega, ?_, rfl⟩
  show (((TinyDBHandler.insert (TinyDBHandler.insert st r1 ts1 u1).1 r2 ts2 u2).1.cache.docs.filter
      (fun p => TinyDBHandler.idMatch i p.2)).head?).map Prod.snd = _
  rw [hdocs2, List.filter_append, List.filter_append]
  rw [List.filter_eq_nil_iff.mpr (fun p hp => by simp [hnone p hp])]
  rw [show (List.filter (fun p => TinyDBHandler.idMatch i p.2)
      [(st.cache.next_id, TinyDBHandler.fillDefaults r1 ts1 u1)]) =
      [(st.cache.next_id, TinyDBHandler.fillDefaults r1 ts1 u1)] by simp [him1]]
  simp

theorem insert_duplicate_ids_witness :
    (TinyDBHandler.insert wStateFree [("id", .jstr "dup")] "T1" "u1").2 =
      .ok wStateFree.cache.next_id ∧
    (TinyDBHandler.insert (TinyDBHandler.insert wStateFree [("id", .jstr "dup")] "T1" "u1").1
        [("id", .jstr "dup")] "T2" "u2").2 =
      .ok (wStateFree.cache.next_id + 1) ∧
    wStateFree.cache.next_id < wStateFree.cache.next_id + 1 ∧
    TinyDBHandler.get_by_id
        (TinyDBHandler.insert
          (TinyDBHandler.insert wStateFree [("id", .jstr "dup")] "T1" "u1").1
          [("id", .jstr "dup")] "T2" "u2").1
        (DocKey.str "dup") =
      some (TinyDBHandler.fillDefaults [("id", .jstr "dup")] "T1" "u1") ∧
    (TinyDBHandler.delete
        (TinyDBHandler.insert
          (TinyDBHandler.insert wStateFree [("id", .jstr "dup")] "T1" "u1").1
          [("id", .jstr "dup")] "T2" "u2").1
        (DocKey.int wStateFree.cache.next_id)).1.cache.next_id =
      (TinyDBHandler.insert
        (TinyDBHandler.insert wStateFree [("id", .jstr "dup")] "T1" "u1").1
        [("id", .jstr "dup")] "T2" "u2").1.cache.next_id :=
  insert_duplicate_ids wStateFree [("id", .jstr "dup")] [("id", .jstr "dup")] "dup"
    "T1" "u1" "T2" "u2" rfl rfl rfl rfl (by decide)

/-- The state/result of a validated string-keyed update: patch plus
timestamp merged into every matching document, flush, `True`. -/
theorem update_ok_str (st : SysState) (i : String) (patch : Rec) (ts : String)
    (ex : Rec)
    (hget : TinyDBHandler.get_by_id st (DocKey.str i) = some ex)
    (hval : TinyDBHandler.validateData st.schema (mergeRec ex patch) = .ok ()) :
    TinyDBHandler.update st (DocKey.str i) patch ts =
      ({ st with
          cache := ⟨st.cache.next_id,
            st.cache.docs.map (fun p =>
              if TinyDBHandler.idMatch i p.2 then
                (p.1, mergeRec p.2 (setField patch "updated_at" (.jstr ts)))
              else p)⟩,
          disk := st.cache.docs.map (fun p =>
            if TinyDBHandler.idMatch i p.2 then
              (p.1, mergeRec p.2 (setField patch "updated_at" (.jstr ts)))
            else p) },
        .ok true) := by
  have hget' : ((st.cache.docs.filter
      (fun p => TinyDBHandler.idMatch i p.2)).head?).map Prod.snd = some ex := hget
  rcases hf : st.cache.docs.filter (fun p => TinyDBHandler.idMatch i p.2) with _ | ⟨hd, tl⟩
  · rw [hf] at hget'
    simp at hget'
  · unfold TinyDBHandler.update
    simp only [hget, hval, matchesKey_str]
    rw [hf]
    simp

/-- C10: when several live records share the same application id, `update`
with that string identifier applies the patch (plus the fresh `updated_at`)
to every matching record — not only the first match, which is all that
`get_by_id` returns — leaves every non-matching record untouched, and
returns `True`. -/
theorem update_applies_to_all_matches (st : SysState) (i : String) (patch : Rec)
    (ts : String) (ex : Rec)
    (hget : TinyDBHandler.get_by_id st (DocKey.str i) = some ex)
    (hval : TinyDBHandler.validateData st.schema (mergeRec ex patch) = .ok ())
    (hmulti : 2 ≤ (st.cache.docs.filter (fun p => TinyDBHandler.idMatch i p.2)).length) :
    (TinyDBHandler.update st (DocKey.str i) patch ts).2 = .ok true ∧
    TinyDBHandler.count (TinyDBHandler.update st (DocKey.str i) patch ts).1 =
      TinyDBHandler.count st ∧
    (∀ p ∈ st.cache.docs, TinyDBHandler.idMatch i p.2 = true →
      (p.1, mergeRec p.2 (setField patch "updated_at" (.jstr ts))) ∈
        (TinyDBHandler.update st (DocKey.str i) patch ts).1.cache.docs) ∧
    (∀ p ∈ st.cache.docs, TinyDBHandler.idMatch i p.2 = false →
      p ∈ (TinyDBHandler.update st (DocKey.str i) patch ts).1.cache.docs) := by
  have hupd := update_ok_str st i patch ts ex hget hval
  refine ⟨by rw [hupd], ?_, ?_, ?_⟩
  · rw [hupd]
    simp [TinyDBHandler.count]
  · intro p hp hm
    rw [hupd]
    refine List.mem_map.mpr ⟨p, hp, ?_⟩
    simp [hm]
  · intro p hp hm
    rw [hupd]
    refine List.mem_map.mpr ⟨p, hp, ?_⟩
    simp [hm]

/-- Witness data: two live records sharing id `"p1"`. -/
def wDupA : Rec := [("id", .jstr "p1"), ("name", .jstr "A")]

def wDupB : Rec := [("id", .jstr "p1"), ("name", .jstr "B")]

def wStateDup : SysState :=
  ⟨none, "projects.json", ⟨3, [(1, wDupA), (2, wDupB)]⟩, [(1, wDupA), (2, wDupB)], []⟩

theorem update_applies_to_all_matches_witness :
    (TinyDBHandler.update wStateDup (DocKey.str "p1") [("status", .jstr "done")] "T2").2 =
      .ok true ∧
    TinyDBHandler.count
        (TinyDBHandler.update wStateDup (DocKey.str "p1") [("status", .jstr "done")] "T2").1 =
      TinyDBHandler.count wStateDup ∧
    (∀ p ∈ wStateDup.cache.docs, TinyDBHandler.idMatch "p1" p.2 = true →
      (p.1, mergeRec p.2 (setField [("status", .jstr "done")] "updated_at" (.jstr "T2"))) ∈
        (TinyDBHandler.update wStateDup (DocKey.str "p1")
          [("status", .jstr "done")] "T2").1.cache.docs) ∧
    (∀ p ∈ wStateDup.cache.docs, TinyDBHandler.idMatch "p1" p.2 = false →
      p ∈ (TinyDBHandler.update wStateDup (DocKey.str "p1")
        [("status", .jstr "done")] "T2").1.cache.docs) :=
  update_applies_to_all_matches wStateDup "p1" [("status", .jstr "done")] "T2" wDupA
    rfl rfl (by decide)

/-- C4 counterexample data: an insert (flushed), then a `delete` — which
does not flush — so the disk still holds the record when `backup` copies
the file; `restore` then resurrects it. -/
def cex4Rec : Rec := [("id", .jstr "p1"), ("name", .jstr "Demo")]

def cex4St0 : SysState :=
  ⟨none, "projects.json", ⟨2, [(1, cex4Rec)]⟩, [(1, cex4Rec)], []⟩

def cex4St1 : SysState := (TinyDBHandler.delete cex4St0 (DocKey.str "p1")).1

def cex4St2 : SysState := (TinyDBHandler.backup cex4St1 "backups/b.json").1

def cex4St3 : SysState := (TinyDBHandler.restore cex4St2 "backups/b.json").1

/-- C4 counterexample: at backup time the collection's record set is empty
(the record was deleted), yet after restoring from that very backup the
collection holds one record again — `backup` copies the durable file, which
the unflushed `delete` never reached, so the round trip is *not* identical
to the collection state at backup time. -/
theorem backup_restore_unflushed_cex :
    TinyDBHandler.count cex4St2 = 0 ∧
    TinyDBHandler.get_all cex4St2 = [] ∧
    (TinyDBHandler.restore cex4St2 "backups/b.json").2 = .ok true ∧
    TinyDBHandler.count cex4St3 = 1 ∧
    TinyDBHandler.get_all cex4St3 = [cex4Rec] :=
  ⟨rfl, rfl, rfl, rfl, rfl⟩

/-- C4 (amended): `backup` snapshots the collection's durable on-disk
record set, and a later `restore` from that file — after arbitrary
intervening mutations — reinstates exactly that set. Provided the cache was
flushed at backup time (`disk = cache`, as after `insert`/`update`, which
force a flush — the counterexample above is an unflushed `delete`), the
round trip restores precisely the collection's record set at backup time:
`count` and every `get_by_id` result revert, covering scenario E
(backup, truncate, restore). -/
theorem backup_restore_roundtrip (st : SysState) (p : String) (ops : List Op)
    (hflush : st.disk = st.cache.docs) :
    (TinyDBHandler.restore (applyOps (TinyDBHandler.backup st p).1 ops) p).2 = .ok true ∧
    (TinyDBHandler.restore
        (applyOps (TinyDBHandler.backup st p).1 ops) p).1.cache.docs = st.cache.docs ∧
    TinyDBHandler.count
        (TinyDBHandler.restore (applyOps (TinyDBHandler.backup st p).1 ops) p).1 =
      TinyDBHandler.count st ∧
    TinyDBHandler.get_all
        (TinyDBHandler.restore (applyOps (TinyDBHandler.backup st p).1 ops) p).1 =
      TinyDBHandler.get_all st ∧
    ∀ k, TinyDBHandler.get_by_id
        (TinyDBHandler.restore (applyOps (TinyDBHandler.backup st p).1 ops) p).1 k =
      TinyDBHandler.get_by_id st k := by
  have hb : (applyOps (TinyDBHandler.backup st p).1 ops).backups =
      aset st.backups p st.disk := by
    rw [backups_applyOps]
    rfl
  have hlook : alookup (applyOps (TinyDBHandler.backup st p).1 ops).backups p =
      some st.cache.docs := by
    rw [hb, alookup_aset_self, hflush]
  have hres : TinyDBHandler.restore (applyOps (TinyDBHandler.backup st p).1 ops) p =
      ({ applyOps (TinyDBHandler.backup st p).1 ops with
          cache := tableOfFile st.cache.docs,
          disk := st.cache.docs,
          backups := aset (applyOps (TinyDBHandler.backup st p).1 ops).backups
            ((applyOps (TinyDBHandler.backup st p).1 ops).dbPath ++ ".pre_restore_backup")
            (applyOps (TinyDBHandler.backup st p).1 ops).cache.docs },
        .ok true) := by
    unfold TinyDBHandler.restore
    simp only [hlook]
  have hdocs : (TinyDBHandler.restore
      (applyOps (TinyDBHandler.backup st p).1 ops) p).1.cache.docs = st.cache.docs := by
    rw [hres]
    rfl
  refine ⟨by rw [hres], hdocs, ?_, ?_, ?_⟩
  · simp only [TinyDBHandler.count]
    rw [hdocs]
  · simp only [TinyDBHandler.get_all]
    rw [hdocs]
  · intro k
    exact get_by_id_congr _ st hdocs k

/-- Witness: scenario E — backup, truncate, restore on the one-record
collection brings `count` back and makes `get_by_id("p1")` succeed again. -/
theorem backup_restore_roundtrip_witness :
    (TinyDBHandler.restore
        (applyOps (TinyDBHandler.backup wState "backups/w.json").1 [Op.opTruncate])
        "backups/w.json").2 = .ok true ∧
    (TinyDBHandler.restore
        (applyOps (TinyDBHandler.backup wState "backups/w.json").1 [Op.opTruncate])
        "backups/w.json").1.cache.docs = wState.cache.docs ∧
    TinyDBHandler.count
        (TinyDBHandler.restore
          (applyOps (TinyDBHandler.backup wState "backups/w.json").1 [Op.opTruncate])
          "backups/w.json").1 =
      TinyDBHandler.count wState ∧
    TinyDBHandler.get_all
        (TinyDBHandler.restore
          (applyOps (TinyDBHandler.backup wState "backups/w.json").1 [Op.opTruncate])
          "backups/w.json").1 =
      TinyDBHandler.get_all wState ∧
    ∀ k, TinyDBHandler.get_by_id
        (TinyDBHandler.restore
          (applyOps (TinyDBHandler.backup wState "backups/w.json").1 [Op.opTruncate])
          "backups/w.json").1 k =
      TinyDBHandler.get_by_id wState k :=
  backup_restore_roundtrip wState "backups/w.json" [Op.opTruncate] rfl

